import Mathlib

/-!
Shallow embedding of `generateHXCStats.py`, the single source file of the
GNK-HXC-Scripts repository, together with theorems settling the frozen
claims about it.

Modelling conventions:
* A Python `dict` keyed by strings is an insertion-ordered association
  list; assignment to an existing key overwrites the value in place,
  a lookup of a missing key (`KeyError`) is `none`.
* A fatal Python exception (`KeyError`, `IndexError`, `ValueError`,
  `ZeroDivisionError`) makes the embedded computation return `none`.
* Console output is modelled as the list of output lines; a bare
  `print("\x5cn")` contributes two empty lines.
* Python `float` division in `printMdlByPlayer` / `printAclByPlayer` is
  immediately floored by `math.floor`; the composition is exact floor
  division, embedded as `Int.fdiv`.  The survival rates of
  `printByClassStats` are embedded as exact rationals.
-/

set_option maxHeartbeats 1000000

/-- A record of the KV store: a Python dict from column-header strings to
raw cell strings, as an insertion-ordered association list. -/
abbrev Record := List (String × String)

/-- Python dict lookup `r[k]`: the value stored at `k`, or `none`
(a fatal `KeyError`) when `k` is absent. -/
def dictGet (r : Record) (k : String) : Option String :=
  (r.find? (fun e => e.1 == k)).map (fun e => e.2)

/-- Python dict assignment `r[k] = v`: overwrites in place when `k` is
present (keeping its position), else appends the new entry. -/
def dictInsert : Record → String → String → Record
  | [], k, v => [(k, v)]
  | e :: rest, k, v => if e.1 = k then (k, v) :: rest else e :: dictInsert rest k v

/-- The inner loop of `extractCSVDataToKVStore` over one data row:
`for index, csvCellValue in enumerate(csvRow): characterData[columnHeaderList[index]] = csvCellValue`.
The index lookup `columnHeaderList[index]` raises `IndexError` (`none`)
exactly when the row is longer than the header. -/
def buildRecordAux (hdr : List String) : List String → Nat → Record → Option Record
  | [], _, acc => some acc
  | v :: vs, i, acc =>
    match hdr[i]? with
    | none => none
    | some k => buildRecordAux hdr vs (i + 1) (dictInsert acc k v)

/-- Builds one record (`characterData`) from a data row zipped
positionally against the header list. -/
def buildRecord (hdr row : List String) : Option Record :=
  buildRecordAux hdr row 0 []

/-- The row loop of `extractCSVDataToKVStore`: while the header list is
still empty the row's cells are appended to it, afterwards each row
becomes one record appended to the KV store. -/
def extractLoop : List (List String) → List String → List Record → Option (List Record)
  | [], _, acc => some acc
  | row :: rest, hdr, acc =>
    if hdr.length < 1 then
      extractLoop rest (hdr ++ row) acc
    else
      match buildRecord hdr row with
      | none => none
      | some r => extractLoop rest hdr (acc ++ [r])

/-- `extractCSVDataToKVStore`: converts the parsed CSV rows into the KV
store (the record store).  The file contents are modelled as the list of
rows already split into cells by the `csv` reader. -/
def extractCSVDataToKVStore (rows : List (List String)) : Option (List Record) :=
  extractLoop rows [] []

/-- One step of `groupKVStoreByColumn`: append the record to the existing
entry for its column value, or create a fresh entry at the end. -/
def appendToGroup : List (String × List Record) → String → Record → List (String × List Record)
  | [], k, r => [(k, [r])]
  | e :: rest, k, r =>
    if e.1 = k then (e.1, e.2 ++ [r]) :: rest else e :: appendToGroup rest k r

/-- The record loop of `groupKVStoreByColumn`; `dictGet` failing is the
`KeyError` raised by `characterDict[columnToGroupBy]`. -/
def groupAux (col : String) : List Record → List (String × List Record) → Option (List (String × List Record))
  | [], acc => some acc
  | r :: rest, acc =>
    match dictGet r col with
    | none => none
    | some v => groupAux col rest (appendToGroup acc v r)

/-- `groupKVStoreByColumn`: groups the record store by the distinct values
of one column, as an insertion-ordered dict from value to record list. -/
def groupKVStoreByColumn (columnStatsKVStore : List Record) (columnToGroupBy : String) : Option (List (String × List Record)) :=
  groupAux columnToGroupBy columnStatsKVStore []

/-- Lookup in a grouped view: the record list stored under a key
(`[]` when the key is absent). -/
def groupGet : List (String × List Record) → String → List Record
  | [], _ => []
  | e :: rest, k => if e.1 = k then e.2 else groupGet rest k

/-- Specification-side step: extend a key list with a record's column
value when that value has not been seen yet. -/
def stepKeys (col : String) (ks : List String) (r : Record) : List String :=
  match dictGet r col with
  | none => ks
  | some v => if v ∈ ks then ks else ks ++ [v]

/-- Specification-side description of the grouped view's key order: the
distinct column values in the order each was first encountered. -/
def firstSeenKeys (store : List Record) (col : String) : List String :=
  store.foldl (stepKeys col) []

/-- Parses a nonempty all-digit character list as a natural number. -/
def digitsToNat (ds : List Char) : Option Nat :=
  if ds.isEmpty then none
  else
    ds.foldl
      (fun acc c =>
        match acc with
        | none => none
        | some a => if c.isDigit then some (a * 10 + (c.toNat - 48)) else none)
      (some 0)

/-- Models Python `int(string)` on canonical decimal integer literals: an
optional leading minus sign followed by one or more digits.  (Python also
tolerates surrounding whitespace, a plus sign and underscores; the data
this script consumes uses the canonical form, on which every integer
parser agrees.)  A non-numeric cell is a fatal `ValueError` (`none`). -/
def pyInt (s : String) : Option Int :=
  match s.data with
  | '-' :: ds => (digitsToNat ds).map (fun n => -(n : Int))
  | ds => (digitsToNat ds).map (fun n => (n : Int))

/-- The `int(character['Level'])` conversions performed by the by-player
stat loops, in record order; `none` on a missing `Level` key (`KeyError`)
or an unparseable cell (`ValueError`). -/
def levelsOf : List Record → Option (List Int)
  | [] => some []
  | r :: rest =>
    match (dictGet r "Level").bind pyInt with
    | none => none
    | some l => (levelsOf rest).map (fun ls => l :: ls)

/-- The truthiness test `if character['Cause of Death']:` — true exactly
when the cell is present and nonempty (a dead character). -/
def isDeadRecord (r : Record) : Bool :=
  match dictGet r "Cause of Death" with
  | some s => s != ""
  | none => false

/-- The truthiness test `if not character['Cause of Death']:` restricted
to records where the key is present — true exactly when the cell is the
empty string (a living character). -/
def isAliveRecord (r : Record) : Bool :=
  dictGet r "Cause of Death" == some ""

/-- The per-player loop body of `printHlcByPlayer`:
`currentPlayerHighestLevel` starts at `0` and is folded with `max` over
the parsed levels of the player's records. -/
def playerHlc (characterList : List Record) : Option Int :=
  match levelsOf characterList with
  | none => none
  | some ls => some (ls.foldl max 0)

/-- The per-player loop body of `printAclByPlayer`:
`math.floor(totalCharacterLevels / len(characterList))`; an empty list
would be a fatal `ZeroDivisionError` (`none`). -/
def playerAcl (characterList : List Record) : Option Int :=
  match levelsOf characterList with
  | none => none
  | some ls =>
    if characterList.length = 0 then none
    else some (Int.fdiv ls.sum characterList.length)

/-- The accumulation loop of `printMdlByPlayer`: total parsed level and
count over the records whose `Cause of Death` is truthy.  `Level` is only
converted for those records; `Cause of Death` is read on every record. -/
def mdlScan : List Record → Option (Int × Nat)
  | [] => some (0, 0)
  | r :: rest =>
    match dictGet r "Cause of Death" with
    | none => none
    | some cod =>
      if cod = "" then mdlScan rest
      else
        match (dictGet r "Level").bind pyInt with
        | none => none
        | some l => (mdlScan rest).map (fun p => (l + p.1, p.2 + 1))

/-- The per-player MDL value of `printMdlByPlayer`:
`math.floor(totalDeadCharacterLevels / numberOfDeadCharacters)` when the
player has dead characters, else `0`. -/
def playerMdl (characterList : List Record) : Option Int :=
  match mdlScan characterList with
  | none => none
  | some p => some (if 0 < p.2 then Int.fdiv p.1 p.2 else 0)

/-- `numCharactersByPlayerDict` of `printNcByPlayer`: each group key with
the length of its record list. -/
def numCharactersByPlayerDict (g : List (String × List Record)) : List (String × Nat) :=
  g.map (fun e => (e.1, e.2.length))

/-- `hlcByPlayerDict` of `printHlcByPlayer` (the dict that gets printed). -/
def hlcByPlayerDict : List (String × List Record) → Option (List (String × Int))
  | [] => some []
  | e :: rest =>
    match playerHlc e.2 with
    | none => none
    | some v => (hlcByPlayerDict rest).map (fun d => (e.1, v) :: d)

/-- Specification-side maximum of a nonempty list of integers. -/
def maxOfLevels : List Int → Option Int
  | [] => none
  | x :: xs => some (xs.foldl max x)

/-- Specification-side list of parsed levels of the dead records only. -/
def deadLevelsOf (rs : List Record) : Option (List Int) :=
  levelsOf (rs.filter isDeadRecord)

/-- The `killedByMobList` built by `printDeathStats`: the `Cause of
Death` cell of every record, in store order; `none` on a `KeyError`. -/
def codsOf : List Record → Option (List String)
  | [] => some []
  | r :: rest =>
    match dictGet r "Cause of Death" with
    | none => none
    | some c => (codsOf rest).map (fun cs => c :: cs)

/-- The `killedByMobSet` of `printDeathStats`.  A Python `set` iterates in
an unspecified order; it is modelled as the duplicate-free list of the
distinct causes (the totals computed from it are order-independent). -/
def killedByMobSet (causes : List String) : List String :=
  causes.dedup

/-- The `killedByMobDict` of `printDeathStats`: each distinct nonempty
cause with its number of occurrences (`killedByMobList.count(mob)`). -/
def killedByMobDict (causes : List String) : List (String × Nat) :=
  ((killedByMobSet causes).filter (fun m => m != "")).map (fun m => (m, causes.count m))

/-- `totalDeaths` of `printDeathStats`: the kill counts of the distinct
nonempty causes, summed as the set loop does. -/
def totalDeathsOf (causes : List String) : Nat :=
  ((killedByMobDict causes).map (fun e => e.2)).sum

/-- `totalAlive` of `printDeathStats`: `killedByMobList.count('')` when
the empty cause occurs in the set, else the initial `0`. -/
def totalAliveOf (causes : List String) : Nat :=
  if "" ∈ killedByMobSet causes then causes.count "" else 0

/-- `Fraction(totalDeaths, totalAlive)` of `printDeathStats`: Python's
`Fraction` reduces by the gcd and raises `ZeroDivisionError` (`none`)
when the denominator is `0`. -/
def deadToLivingFracation (store : List Record) : Option (Nat × Nat) :=
  match codsOf store with
  | none => none
  | some causes =>
    if totalAliveOf causes = 0 then none
    else
      some (totalDeathsOf causes / Nat.gcd (totalDeathsOf causes) (totalAliveOf causes),
            totalAliveOf causes / Nat.gcd (totalDeathsOf causes) (totalAliveOf causes))

/-- `str(Fraction(n, d))`: Python renders a fraction with denominator `1`
without the slash. -/
def fracStr (f : Nat × Nat) : String :=
  if f.2 = 1 then toString f.1 else toString f.1 ++ "/" ++ toString f.2

/-- `generateMonocharcterString` (sic): the while loop appending `length`
copies of `character`. -/
def generateMonocharcterString (character : Char) : Nat → String
  | 0 => ""
  | n + 1 => (generateMonocharcterString character n).push character

/-- Stable descending insertion of one entry: the entry is placed before
the first existing entry whose value does not exceed its own, so entries
inserted from an earlier list position stay in front of equal values. -/
def insertDescBy {β : Type} [LinearOrder β] (x : String × β) : List (String × β) → List (String × β)
  | [] => [x]
  | y :: ys => if y.2 ≤ x.2 then x :: y :: ys else y :: insertDescBy x ys

/-- `sorted(printDict.items(), key=lambda x: x[1], reverse=True)`:
Python's sort is stable and, with `reverse=True`, descending by value;
it is modelled extensionally by a stable descending insertion sort. -/
def sortDescByValue {β : Type} [LinearOrder β] : List (String × β) → List (String × β)
  | [] => []
  | x :: xs => insertDescBy x (sortDescByValue xs)

/-- One printed entry line `print(entry[0], ":", entry[1])`. -/
def fmtEntry {β : Type} [ToString β] (e : String × β) : String :=
  e.1 ++ " : " ++ toString e.2

/-- `printSortedDict` as the list of lines it prints: the title, an
underline of dashes of the title's length, one `key : value` line per
entry in stable descending value order, then the two empty lines of the
trailing `print("\x5cn")`. -/
def printSortedDict {β : Type} [LinearOrder β] [ToString β] (printDict : List (String × β)) (sectionTitle : String) : List String :=
  [sectionTitle, generateMonocharcterString '-' sectionTitle.length]
    ++ (sortDescByValue printDict).map fmtEntry ++ ["", ""]

/-- The per-class loop body of `printByClassStats`:
`livingCharacters / len(characterList)` with the living count taken over
truthiness of `Cause of Death`; the float quotient is modelled as an
exact rational. -/
def playerSurvival (characterList : List Record) : Option ℚ :=
  match codsOf characterList with
  | none => none
  | some cods =>
    if characterList.length = 0 then none
    else some ((cods.count "" : ℚ) / (characterList.length : ℚ))

/-- The loop of `printByClassStats` building `survivalPercentByClassDict`
over the grouped view, in group order. -/
def survivalOfGroups : List (String × List Record) → Option (List (String × ℚ))
  | [] => some []
  | e :: rest =>
    match playerSurvival e.2 with
    | none => none
    | some q => (survivalOfGroups rest).map (fun d => (e.1, q) :: d)

/-- `survivalPercentByClassDict` of `printByClassStats`. -/
def survivalPercentByClassDict (store : List Record) : Option (List (String × ℚ)) :=
  match groupKVStoreByColumn store "Class" with
  | none => none
  | some g => survivalOfGroups g

/-- `printByClassStats` as the list of lines it prints.  The title and
underline come from the single call
`print("Survival Rate By Class\x5cn--------")`; each entry line is
`print(key, ":", "%i" % (rate * 100), "%")`, where `%i` truncates the
nonnegative rate toward zero, i.e. floors it. -/
def printByClassStats (store : List Record) : Option (List String) :=
  match survivalPercentByClassDict store with
  | none => none
  | some d =>
    some (["Survival Rate By Class", "--------"]
      ++ (sortDescByValue d).map (fun e => e.1 ++ " : " ++ toString ⌊e.2 * 100⌋ ++ " %")
      ++ ["", ""])

/-- `printDeathStats` as the list of lines it prints: the sorted
cause-of-death table, then the ratio line (preceded by the empty line of
its leading `\x5cn`), then the two empty lines of the final
`print("\x5cn")`.  `none` on a `KeyError` or on the `ZeroDivisionError`
of the ratio. -/
def printDeathStats (store : List Record) : Option (List String) :=
  match codsOf store with
  | none => none
  | some causes =>
    match deadToLivingFracation store with
    | none => none
    | some f =>
      some (printSortedDict (killedByMobDict causes)
              ("Cause of Death (" ++ toString (totalDeathsOf causes) ++ ")")
            ++ ["", "Dead-to-Living Ratio: " ++ fracStr f, "", ""])

/-! ### Helper lemmas -/

theorem generateMonocharcterString_length (c : Char) (n : Nat) :
    (generateMonocharcterString c n).length = n := by
  induction n with
  | zero => rfl
  | succ n ih =>
    show ((generateMonocharcterString c n).push c).length = n + 1
    rw [String.length_push, ih]

/-! ### Claim theorems -/

/-- C2, counterexample: the loader does NOT treat every row-length
mismatch as fatal.  On a file whose header has two columns and whose
single data row has one cell, `extractCSVDataToKVStore` succeeds and
produces a record store containing a one-key record, contradicting the
claim that such a file yields a fatal error and no record store. -/
theorem c2_counterexample :
    extractCSVDataToKVStore [["A", "B"], ["x"]] = some [[("A", "x")]] := by
  decide

/-- C3, counterexample: `printHlcByPlayer` seeds its running maximum with
`0`, so for a player whose only record has `Level` `"-5"` the computed
HLC value is `0`, not the maximum (`-5`) of the integer-parsed levels of
the group. -/
theorem c3_counterexample :
    hlcByPlayerDict [("P", [[("Level", "-5")]])] = some [("P", 0)] ∧
    levelsOf [[("Level", "-5")]] = some [-5] ∧
    maxOfLevels [-5] = some (-5) ∧ (0 : Int) ≠ -5 := by
  exact ⟨by decide, by decide, by decide, by decide⟩

/-- C6, counterexample: the survival-rate-by-class section does not
print an underline of the title's length.  Its first two output lines
are the 22-character title `Survival Rate By Class` and the fixed
8-character underline `--------`. -/
theorem c6_counterexample :
    (printByClassStats [[("Class", "Mage"), ("Cause of Death", "")]]).map (fun ls => ls.take 2)
      = some ["Survival Rate By Class", "--------"] ∧
    ("--------" : String).length ≠ ("Survival Rate By Class" : String).length := by
  constructor
  · have hg : groupKVStoreByColumn [[("Class", "Mage"), ("Cause of Death", "")]] "Class"
        = some [("Mage", [[("Class", "Mage"), ("Cause of Death", "")]])] := by decide
    have hc : codsOf [[("Class", "Mage"), ("Cause of Death", "")]] = some [""] := by decide
    have hs : survivalPercentByClassDict [[("Class", "Mage"), ("Cause of Death", "")]]
        = some [("Mage", (1 : ℚ))] := by
      unfold survivalPercentByClassDict
      rw [hg]
      unfold survivalOfGroups playerSurvival
      rw [hc]
      norm_num [survivalOfGroups]
    unfold printByClassStats
    rw [hs]
    simp
  · decide

/-- C10: an empty record store arises both from an empty file and from a
header-only file, and on it the death-stats computation has zero dead
and zero living characters, so forming the dead-to-living ratio is a
division by zero (`Fraction(0, 0)`) and the death-stats section (hence
the full report) cannot be produced. -/
theorem c10_emptyStore :
    (∀ hdr : List String, extractCSVDataToKVStore [hdr] = some []) ∧
    extractCSVDataToKVStore [] = some [] ∧
    codsOf [] = some [] ∧ totalDeathsOf [] = 0 ∧ totalAliveOf [] = 0 ∧
    deadToLivingFracation [] = none ∧ printDeathStats [] = none := by
  refine ⟨fun hdr => ?_, rfl, rfl, rfl, rfl, rfl, rfl⟩
  simp [extractCSVDataToKVStore, extractLoop]

theorem insertDescBy_perm {β : Type} [LinearOrder β] (x : String × β) (l : List (String × β)) :
    (insertDescBy x l).Perm (x :: l) := by
  induction l with
  | nil => exact List.Perm.refl _
  | cons y ys ih =>
    unfold insertDescBy
    by_cases h : y.2 ≤ x.2
    · rw [if_pos h]
    · rw [if_neg h]
      exact (ih.cons y).trans (List.Perm.swap x y ys)

theorem insertDescBy_pairwise {β : Type} [LinearOrder β] (x : String × β) (l : List (String × β))
    (hl : l.Pairwise (fun a b => b.2 ≤ a.2)) :
    (insertDescBy x l).Pairwise (fun a b => b.2 ≤ a.2) := by
  induction l with
  | nil => simp [insertDescBy]
  | cons y ys ih =>
    rcases List.pairwise_cons.1 hl with ⟨hy, hys⟩
    unfold insertDescBy
    by_cases h : y.2 ≤ x.2
    · rw [if_pos h]
      refine List.pairwise_cons.2 ⟨?_, hl⟩
      intro z hz
      rcases List.mem_cons.1 hz with hz | hz
      · exact hz ▸ h
      · exact (hy z hz).trans h
    · rw [if_neg h]
      refine List.pairwise_cons.2 ⟨?_, ih hys⟩
      intro z hz
      rcases List.mem_cons.1 ((insertDescBy_perm x ys).mem_iff.1 hz) with hz' | hz'
      · exact hz' ▸ le_of_lt (not_le.1 h)
      · exact hy z hz'

theorem insertDescBy_filter_pos {β : Type} [LinearOrder β] (x : String × β)
    (l : List (String × β)) (v : β) (hx : x.2 = v) :
    (insertDescBy x l).filter (fun e => decide (e.2 = v))
      = x :: l.filter (fun e => decide (e.2 = v)) := by
  induction l with
  | nil => simp [insertDescBy, hx]
  | cons y ys ih =>
    unfold insertDescBy
    by_cases h : y.2 ≤ x.2
    · rw [if_pos h]
      simp [List.filter_cons, hx]
    · rw [if_neg h]
      have hy : ¬(y.2 = v) := by
        rw [← hx]
        intro e
        exact h (le_of_eq e)
      simp [List.filter_cons, hy, ih]

theorem insertDescBy_filter_neg {β : Type} [LinearOrder β] (x : String × β)
    (l : List (String × β)) (v : β) (hx : ¬(x.2 = v)) :
    (insertDescBy x l).filter (fun e => decide (e.2 = v))
      = l.filter (fun e => decide (e.2 = v)) := by
  induction l with
  | nil => simp [insertDescBy, hx]
  | cons y ys ih =>
    unfold insertDescBy
    by_cases h : y.2 ≤ x.2
    · rw [if_pos h]
      simp [List.filter_cons, hx]
    · rw [if_neg h]
      simp [List.filter_cons, ih]

theorem sortDescByValue_perm {β : Type} [LinearOrder β] (l : List (String × β)) :
    (sortDescByValue l).Perm l := by
  induction l with
  | nil => exact List.Perm.refl _
  | cons x xs ih =>
    exact (insertDescBy_perm x (sortDescByValue xs)).trans (ih.cons x)

theorem sortDescByValue_pairwise {β : Type} [LinearOrder β] (l : List (String × β)) :
    (sortDescByValue l).Pairwise (fun a b => b.2 ≤ a.2) := by
  induction l with
  | nil => simp [sortDescByValue]
  | cons x xs ih =>
    exact insertDescBy_pairwise x (sortDescByValue xs) ih

theorem sortDescByValue_filter {β : Type} [LinearOrder β] (l : List (String × β)) (v : β) :
    (sortDescByValue l).filter (fun e => decide (e.2 = v))
      = l.filter (fun e => decide (e.2 = v)) := by
  induction l with
  | nil => rfl
  | cons x xs ih =>
    unfold sortDescByValue
    by_cases hx : x.2 = v
    · rw [insertDescBy_filter_pos _ _ _ hx, ih]
      simp [List.filter_cons, hx]
    · rw [insertDescBy_filter_neg _ _ _ hx, ih]
      simp [List.filter_cons, hx]

/-- C6 (amended): the shared renderer `printSortedDict` — used by the
five by-player sections and the cause-of-death section — behaves as the
claim states: entries are sorted by value descending by a stable sort
(entries with equal values keep their original iteration order, captured
by the filter equation), and the output is a title line, an underline of
the title's length, one `key : value` line per entry, then a blank
separator line.  The survival-rate-by-class section, however, prints a
fixed 8-dash underline under its 22-character title and formats entries
as percentages (see the counterexample), so the claim holds only for the
`printSortedDict` sections. -/
theorem c6_amended {β : Type} [LinearOrder β] [ToString β]
    (printDict : List (String × β)) (sectionTitle : String) :
    printSortedDict printDict sectionTitle
      = sectionTitle :: generateMonocharcterString '-' sectionTitle.length
          :: ((sortDescByValue printDict).map fmtEntry ++ ["", ""]) ∧
    (generateMonocharcterString '-' sectionTitle.length).length = sectionTitle.length ∧
    (sortDescByValue printDict).Pairwise (fun a b => b.2 ≤ a.2) ∧
    (sortDescByValue printDict).Perm printDict ∧
    ∀ v : β, (sortDescByValue printDict).filter (fun e => decide (e.2 = v))
        = printDict.filter (fun e => decide (e.2 = v)) :=
  ⟨rfl, generateMonocharcterString_length '-' sectionTitle.length,
    sortDescByValue_pairwise printDict, sortDescByValue_perm printDict,
    sortDescByValue_filter printDict⟩

/-- C6, witness: the amended renderer theorem applied to a concrete
dictionary with a tie (values 3, 7, 3). -/
theorem c6_witness :
    (sortDescByValue [("A", (3 : Int)), ("B", 7), ("C", 3)]).Perm
      [("A", (3 : Int)), ("B", 7), ("C", 3)] ∧
    sortDescByValue [("A", (3 : Int)), ("B", 7), ("C", 3)] = [("B", 7), ("A", 3), ("C", 3)] :=
  ⟨(c6_amended [("A", (3 : Int)), ("B", 7), ("C", 3)] "NC (Number of Characters)").2.2.2.1,
    by decide⟩

theorem appendToGroup_keys (acc : List (String × List Record)) (v : String) (r : Record) :
    (appendToGroup acc v r).map Prod.fst
      = if v ∈ acc.map Prod.fst then acc.map Prod.fst else acc.map Prod.fst ++ [v] := by
  induction acc with
  | nil => simp [appendToGroup]
  | cons e rest ih =>
    unfold appendToGroup
    by_cases h : e.1 = v
    · rw [if_pos h]
      simp [h]
    · rw [if_neg h]
      have hne : ¬v = e.1 := fun hh => h hh.symm
      simp only [List.map_cons, ih, List.mem_cons, hne, false_or]
      by_cases hv : v ∈ List.map Prod.fst rest
      · simp [hv]
      · simp [hv]

theorem appendToGroup_groupGet (acc : List (String × List Record)) (v : String) (r : Record)
    (k : String) :
    groupGet (appendToGroup acc v r) k = groupGet acc k ++ (if v = k then [r] else []) := by
  induction acc with
  | nil =>
    by_cases h : v = k
    · simp [appendToGroup, groupGet, h]
    · simp [appendToGroup, groupGet, h]
  | cons e rest ih =>
    unfold appendToGroup
    by_cases h : e.1 = v
    · rw [if_pos h]
      by_cases hk : e.1 = k
      · simp [groupGet, hk, h.symm.trans hk]
      · have hvk : ¬v = k := fun hh => hk (h.trans hh)
        simp [groupGet, hk, hvk]
    · rw [if_neg h]
      by_cases hk : e.1 = k
      · have hvk : ¬v = k := fun hh => h (hk.trans hh.symm)
        simp [groupGet, hk, hvk]
      · simp [groupGet, hk, ih]

theorem appendToGroup_sizes (acc : List (String × List Record)) (v : String) (r : Record) :
    ((appendToGroup acc v r).map (fun e => e.2.length)).sum
      = ((acc.map (fun e => e.2.length)).sum) + 1 := by
  induction acc with
  | nil => simp [appendToGroup]
  | cons e rest ih =>
    unfold appendToGroup
    by_cases h : e.1 = v
    · rw [if_pos h]
      simp
      omega
    · rw [if_neg h]
      simp [ih]
      omega

theorem groupAux_none (col : String) (store : List Record) (acc : List (String × List Record))
    (h : ∃ r ∈ store, dictGet r col = none) : groupAux col store acc = none := by
  induction store generalizing acc with
  | nil => simp at h
  | cons r rest ih =>
    rcases h with ⟨r0, hr0, hnone⟩
    rcases List.mem_cons.1 hr0 with h1 | h1
    · subst h1
      simp [groupAux, hnone]
    · cases hv : dictGet r col with
      | none => simp [groupAux, hv]
      | some v =>
        simp only [groupAux, hv]
        exact ih (appendToGroup acc v r) ⟨r0, h1, hnone⟩

theorem groupAux_some (col : String) (store : List Record) :
    ∀ acc, (∀ r ∈ store, (dictGet r col).isSome) → ∃ g, groupAux col store acc = some g := by
  induction store with
  | nil => exact fun acc _ => ⟨acc, rfl⟩
  | cons r rest ih =>
    intro acc h
    rcases Option.isSome_iff_exists.1 (h r (List.mem_cons_self r rest)) with ⟨v, hv⟩
    rcases ih (appendToGroup acc v r) (fun r' hr' => h r' (List.mem_cons_of_mem _ hr')) with ⟨g, hg⟩
    exact ⟨g, by simp [groupAux, hv, hg]⟩

theorem groupAux_groupGet (col : String) (store : List Record) :
    ∀ acc g, groupAux col store acc = some g → ∀ k,
      groupGet g k = groupGet acc k ++ store.filter (fun r => dictGet r col == some k) := by
  induction store with
  | nil =>
    intro acc g hg k
    simp only [groupAux] at hg
    cases hg
    simp
  | cons r rest ih =>
    intro acc g hg k
    cases hv : dictGet r col with
    | none => simp [groupAux, hv] at hg
    | some v =>
      simp only [groupAux, hv] at hg
      rw [ih (appendToGroup acc v r) g hg k, appendToGroup_groupGet]
      by_cases hvk : v = k
      · simp [List.filter_cons, hv, hvk]
      · simp [List.filter_cons, hv, hvk]

theorem groupAux_keys (col : String) (store : List Record) :
    ∀ acc g, groupAux col store acc = some g →
      g.map Prod.fst = store.foldl (stepKeys col) (acc.map Prod.fst) := by
  induction store with
  | nil =>
    intro acc g hg
    simp only [groupAux] at hg
    cases hg
    rfl
  | cons r rest ih =>
    intro acc g hg
    cases hv : dictGet r col with
    | none => simp [groupAux, hv] at hg
    | some v =>
      simp only [groupAux, hv] at hg
      rw [List.foldl_cons]
      have hstep : stepKeys col (acc.map Prod.fst) r = (appendToGroup acc v r).map Prod.fst := by
        rw [appendToGroup_keys]
        simp [stepKeys, hv]
      rw [hstep]
      exact ih (appendToGroup acc v r) g hg

theorem groupAux_sizes (col : String) (store : List Record) :
    ∀ acc g, groupAux col store acc = some g →
      (g.map (fun e => e.2.length)).sum = ((acc.map (fun e => e.2.length)).sum) + store.length := by
  induction store with
  | nil =>
    intro acc g hg
    simp only [groupAux] at hg
    cases hg
    simp
  | cons r rest ih =>
    intro acc g hg
    cases hv : dictGet r col with
    | none => simp [groupAux, hv] at hg
    | some v =>
      simp only [groupAux, hv] at hg
      rw [ih (appendToGroup acc v r) g hg, appendToGroup_sizes]
      simp
      omega

theorem stepKeys_nodup (col : String) (r : Record) (ks : List String) (h : ks.Nodup) :
    (stepKeys col ks r).Nodup := by
  unfold stepKeys
  cases dictGet r col with
  | none => exact h
  | some v =>
    by_cases hv : v ∈ ks
    · simpa [hv] using h
    · simp only [hv, if_false]
      simp [List.nodup_append, h, hv]

theorem foldl_stepKeys_nodup (col : String) (store : List Record) :
    ∀ ks : List String, ks.Nodup → (store.foldl (stepKeys col) ks).Nodup := by
  induction store with
  | nil => exact fun ks h => h
  | cons r rest ih =>
    intro ks h
    rw [List.foldl_cons]
    exact ih (stepKeys col ks r) (stepKeys_nodup col r ks h)

theorem firstSeenKeys_nodup (store : List Record) (col : String) :
    (firstSeenKeys store col).Nodup :=
  foldl_stepKeys_nodup col store [] List.nodup_nil

theorem assoc_eta (g : List (String × List Record)) (h : (g.map Prod.fst).Nodup) :
    g = (g.map Prod.fst).map (fun k => (k, groupGet g k)) := by
  induction g with
  | nil => rfl
  | cons f rest ih =>
    have h' : (f.1 :: rest.map Prod.fst).Nodup := by simpa using h
    rcases List.nodup_cons.1 h' with ⟨hf, hrest⟩
    have h2 : groupGet (f :: rest) f.1 = f.2 := by simp [groupGet]
    have h3 : ∀ k ∈ rest.map Prod.fst,
        (k, groupGet (f :: rest) k) = (k, groupGet rest k) := by
      intro k hk
      have hne : ¬f.1 = k := fun hh => hf (hh ▸ hk)
      simp [groupGet, hne]
    calc f :: rest
        = f :: (rest.map Prod.fst).map (fun k => (k, groupGet rest k)) := by
          rw [← ih hrest]
      _ = (f.1, groupGet (f :: rest) f.1)
            :: (rest.map Prod.fst).map (fun k => (k, groupGet (f :: rest) k)) := by
          rw [h2, List.map_congr_left h3]
      _ = ((f :: rest).map Prod.fst).map (fun k => (k, groupGet (f :: rest) k)) := by
          simp

/-- C5: when the grouping column is present in every record,
`groupKVStoreByColumn` succeeds and returns exactly the mapping whose
keys are the distinct column values in first-encountered order, each key
carrying the records having that value, in their original relative order
(`List.filter` preserves store order); when some record lacks the
column, it fails with a lookup error (`none`). -/
theorem c5_groupBy (store : List Record) (col : String) :
    ((∀ r ∈ store, (dictGet r col).isSome) →
      groupKVStoreByColumn store col
        = some ((firstSeenKeys store col).map
            (fun k => (k, store.filter (fun r => dictGet r col == some k))))) ∧
    ((∃ r ∈ store, dictGet r col = none) → groupKVStoreByColumn store col = none) := by
  constructor
  · intro hall
    rcases groupAux_some col store [] hall with ⟨g, hg⟩
    have hkeys : g.map Prod.fst = firstSeenKeys store col :=
      groupAux_keys col store [] g hg
    have hnd : (g.map Prod.fst).Nodup := by
      rw [hkeys]
      exact firstSeenKeys_nodup store col
    have hget : ∀ k, groupGet g k = store.filter (fun r => dictGet r col == some k) := by
      intro k
      simpa [groupGet] using groupAux_groupGet col store [] g hg k
    unfold groupKVStoreByColumn
    rw [hg]
    congr 1
    calc g = (g.map Prod.fst).map (fun k => (k, groupGet g k)) := assoc_eta g hnd
      _ = (firstSeenKeys store col).map
            (fun k => (k, store.filter (fun r => dictGet r col == some k))) := by
          rw [hkeys]
          simp only [hget]
  · intro hex
    exact groupAux_none col store [] hex

/-- C5, witness: grouping a three-record store by a column present in
every record; keys appear in first-seen order and each group holds its
records in store order. -/
theorem c5_witness :
    (∀ r ∈ ([[("P", "A")], [("P", "B")], [("P", "A")]] : List Record),
      (dictGet r "P").isSome) ∧
    groupKVStoreByColumn [[("P", "A")], [("P", "B")], [("P", "A")]] "P"
      = some [("A", [[("P", "A")], [("P", "A")]]), ("B", [[("P", "B")]])] :=
  ⟨by decide, (c5_groupBy [[("P", "A")], [("P", "B")], [("P", "A")]] "P").1 (by decide)⟩

/-- C8: for a non-empty record store whose records all carry the
`Character Player` column, the per-player NC values (the group sizes
reported by `printNcByPlayer`) sum to the total number of records. -/
theorem c8_ncSum (store : List Record) (hne : store ≠ [])
    (hall : ∀ r ∈ store, (dictGet r "Character Player").isSome)
    (g : List (String × List Record))
    (hg : groupKVStoreByColumn store "Character Player" = some g) :
    ((numCharactersByPlayerDict g).map (fun e => e.2)).sum = store.length := by
  have hsz := groupAux_sizes "Character Player" store [] g hg
  simpa [numCharactersByPlayerDict, List.map_map, Function.comp] using hsz

/-- C8, witness: a concrete three-record store with two players; the NC
values 2 and 1 sum to the record count 3. -/
theorem c8_witness :
    groupKVStoreByColumn
        [[("Character Player", "A")], [("Character Player", "B")], [("Character Player", "A")]]
        "Character Player"
      = some [("A", [[("Character Player", "A")], [("Character Player", "A")]]),
              ("B", [[("Character Player", "B")]])] ∧
    ((numCharactersByPlayerDict
        [("A", [[("Character Player", "A")], [("Character Player", "A")]]),
         ("B", [[("Character Player", "B")]])]).map (fun e => e.2)).sum = 3 :=
  ⟨by decide,
    c8_ncSum [[("Character Player", "A")], [("Character Player", "B")], [("Character Player", "A")]]
      (by decide) (by decide) _ (by decide)⟩

theorem buildRecordAux_isSome (hdr : List String) :
    ∀ (row : List String) (i : Nat) (acc : Record),
      i + row.length ≤ hdr.length → (buildRecordAux hdr row i acc).isSome := by
  intro row
  induction row with
  | nil =>
    intro i acc _
    rfl
  | cons v vs ih =>
    intro i acc h
    have hi : i < hdr.length := by
      simp only [List.length_cons] at h
      omega
    have hv : hdr[i]? = some hdr[i] := List.getElem?_eq_getElem hi
    simp only [buildRecordAux, hv]
    apply ih (i + 1) (dictInsert acc hdr[i] v)
    simp only [List.length_cons] at h
    omega

theorem buildRecordAux_none (hdr : List String) :
    ∀ (row : List String) (i : Nat) (acc : Record),
      hdr.length < i + row.length → row ≠ [] → buildRecordAux hdr row i acc = none := by
  intro row
  induction row with
  | nil =>
    intro i acc _ hne
    exact absurd rfl hne
  | cons v vs ih =>
    intro i acc h _
    cases hv : hdr[i]? with
    | none => simp [buildRecordAux, hv]
    | some k =>
      have hi : i < hdr.length := by
        by_contra hc
        rw [List.getElem?_eq_none (by omega)] at hv
        cases hv
      simp only [buildRecordAux, hv]
      rcases vs with _ | ⟨w, ws⟩
      · exfalso
        simp only [List.length_cons, List.length_nil] at h
        omega
      · apply ih (i + 1) (dictInsert acc k v)
        · simp only [List.length_cons] at h ⊢
          omega
        · simp

theorem extractLoop_none (hdr : List String) (hne : hdr ≠ []) :
    ∀ (rows : List (List String)) (acc : List Record),
      (∃ row ∈ rows, hdr.length < row.length) → extractLoop rows hdr acc = none := by
  intro rows
  induction rows with
  | nil =>
    intro acc h
    simp at h
  | cons row rest ih =>
    intro acc h
    have hlen : ¬hdr.length < 1 := by
      have := List.length_pos.2 hne
      omega
    rcases h with ⟨row0, hr0, hlong⟩
    rcases List.mem_cons.1 hr0 with h1 | h1
    · subst h1
      have hrne : row0 ≠ [] := by
        intro hc
        rw [hc] at hlong
        simp at hlong
      have hb : buildRecord hdr row0 = none := by
        unfold buildRecord
        exact buildRecordAux_none hdr row0 0 [] (by omega) hrne
      simp [extractLoop, hlen, hb]
    · cases hb : buildRecord hdr row with
      | none => simp [extractLoop, hlen, hb]
      | some r =>
        simp only [extractLoop, hlen, if_false, hb]
        exact ih (acc ++ [r]) ⟨row0, h1, hlong⟩

theorem extractLoop_some (hdr : List String) (hne : hdr ≠ []) :
    ∀ (rows : List (List String)) (acc : List Record),
      (∀ row ∈ rows, row.length ≤ hdr.length) →
      ∃ store, extractLoop rows hdr acc = some store ∧
        store.length = acc.length + rows.length := by
  intro rows
  induction rows with
  | nil =>
    intro acc _
    exact ⟨acc, rfl, by simp⟩
  | cons row rest ih =>
    intro acc h
    have hlen : ¬hdr.length < 1 := by
      have := List.length_pos.2 hne
      omega
    have hb : (buildRecord hdr row).isSome :=
      buildRecordAux_isSome hdr row 0 []
        (by simpa using h row (List.mem_cons_self row rest))
    rcases Option.isSome_iff_exists.1 hb with ⟨r, hr⟩
    rcases ih (acc ++ [r]) (fun row' hrow' => h row' (List.mem_cons_of_mem _ hrow'))
      with ⟨store, hs, hlen2⟩
    refine ⟨store, ?_, ?_⟩
    · simp only [extractLoop, hlen, if_false, hr]
      exact hs
    · have hacc : (acc ++ [r]).length = acc.length + 1 := by simp
      rw [hacc] at hlen2
      simp only [List.length_cons]
      omega

/-- C2 (amended): only a data row LONGER than the header is fatal to the
loader (the positional header lookup runs past the header list); a data
row SHORTER than the header is accepted silently, the produced record
simply carrying only the first `row.length` columns — so a record store
is produced whenever no data row exceeds the header length, even if some
rows are shorter than the header. -/
theorem c2_amended (hdr : List String) (rows : List (List String)) (hne : hdr ≠ []) :
    ((∃ row ∈ rows, hdr.length < row.length) →
      extractCSVDataToKVStore (hdr :: rows) = none) ∧
    ((∀ row ∈ rows, row.length ≤ hdr.length) →
      ∃ store, extractCSVDataToKVStore (hdr :: rows) = some store ∧
        store.length = rows.length) := by
  have hstep : extractCSVDataToKVStore (hdr :: rows) = extractLoop rows hdr [] := by
    simp [extractCSVDataToKVStore, extractLoop]
  constructor
  · intro h
    rw [hstep]
    exact extractLoop_none hdr hne rows [] h
  · intro h
    rw [hstep]
    simpa using extractLoop_some hdr hne rows [] h

/-- C2, witness: a one-column header with a two-cell data row is fatal —
the loader yields no record store. -/
theorem c2_witness :
    extractCSVDataToKVStore [["A"], ["x", "y"]] = none :=
  (c2_amended ["A"] [["x", "y"]] (by decide)).1 ⟨["x", "y"], by decide, by decide⟩

theorem levelsOf_length (rs : List Record) :
    ∀ ls : List Int, levelsOf rs = some ls → ls.length = rs.length := by
  induction rs with
  | nil =>
    intro ls h
    simp only [levelsOf, Option.some.injEq] at h
    rw [← h]
    rfl
  | cons r rest ih =>
    intro ls h
    cases hv : (dictGet r "Level").bind pyInt with
    | none => simp [levelsOf, hv] at h
    | some l =>
      simp only [levelsOf, hv] at h
      cases hr : levelsOf rest with
      | none =>
        rw [hr] at h
        simp at h
      | some ls2 =>
        rw [hr] at h
        simp only [Option.map_some', Option.some.injEq] at h
        rw [← h]
        simp [ih ls2 hr]

theorem le_foldl_max (ls : List Int) : ∀ a : Int, a ≤ ls.foldl max a := by
  induction ls with
  | nil =>
    intro a
    simp
  | cons x xs ih =>
    intro a
    simp only [List.foldl_cons]
    exact (le_max_left a x).trans (ih (max a x))

theorem mem_le_foldl_max (ls : List Int) : ∀ (a x : Int), x ∈ ls → x ≤ ls.foldl max a := by
  induction ls with
  | nil =>
    intro a x hx
    cases hx
  | cons y ys ih =>
    intro a x hx
    simp only [List.foldl_cons]
    rcases List.mem_cons.1 hx with h1 | h1
    · subst h1
      exact (le_max_right a x).trans (le_foldl_max ys (max a x))
    · exact ih (max a y) x h1

theorem foldl_max_init (ls : List Int) : ∀ a b : Int, ls.foldl max (max a b) = max a (ls.foldl max b) := by
  induction ls with
  | nil =>
    intro a b
    simp
  | cons y ys ih =>
    intro a b
    simp only [List.foldl_cons]
    rw [max_assoc, ih]

/-- C3 (amended): the HLC value computed by `printHlcByPlayer` for a
group equals the maximum of the integer-parsed `Level` values of the
group whenever that maximum is nonnegative (always the case on the
intended data, where levels are positive).  Because the running maximum
is seeded with `0`, a group whose levels are all negative yields `0`
instead (see the counterexample). -/
theorem c3_amended (rs : List Record) (ls : List Int) (m : Int)
    (hls : levelsOf rs = some ls) (hm : maxOfLevels ls = some m) (hnn : 0 ≤ m) :
    playerHlc rs = some m := by
  unfold playerHlc
  rw [hls]
  rcases ls with _ | ⟨x, xs⟩
  · simp [maxOfLevels] at hm
  · simp only [maxOfLevels, Option.some.injEq] at hm
    simp only [List.foldl_cons]
    rw [foldl_max_init, hm, max_eq_right hnn]

/-- C3, witness: the amended theorem on a one-record group of level 5. -/
theorem c3_witness :
    levelsOf [[("Level", "5")]] = some [5] ∧ maxOfLevels [5] = some 5 ∧ (0 : Int) ≤ 5 ∧
    playerHlc [[("Level", "5")]] = some 5 :=
  ⟨by decide, by decide, by decide,
    c3_amended [[("Level", "5")]] [5] 5 (by decide) (by decide) (by decide)⟩

theorem sum_le_length_mul (ls : List Int) (M : Int) :
    (∀ x ∈ ls, x ≤ M) → ls.sum ≤ (ls.length : Int) * M := by
  induction ls with
  | nil =>
    intro _
    simp
  | cons x xs ih =>
    intro h
    have hx := h x (List.mem_cons_self x xs)
    have hxs := ih (fun y hy => h y (List.mem_cons_of_mem _ hy))
    simp only [List.sum_cons, List.length_cons]
    push_cast
    have hexp : ((xs.length : Int) + 1) * M = (xs.length : Int) * M + M := by ring
    rw [hexp]
    linarith

/-- C7: for every player group on which both metrics are computed, the
ACL value (`printAclByPlayer`) never exceeds the HLC value
(`printHlcByPlayer`): the floored mean of the levels is at most the
(0-seeded) maximum of the levels. -/
theorem c7_aclLeHlc (rs : List Record) (a h : Int)
    (ha : playerAcl rs = some a) (hh : playerHlc rs = some h) : a ≤ h := by
  cases hls : levelsOf rs with
  | none =>
    simp [playerAcl, hls] at ha
  | some ls =>
    simp only [playerAcl, hls] at ha
    simp only [playerHlc, hls, Option.some.injEq] at hh
    by_cases hlen : rs.length = 0
    · rw [if_pos hlen] at ha
      cases ha
    · rw [if_neg hlen] at ha
      simp only [Option.some.injEq] at ha
      subst ha
      subst hh
      have hlsl : ls.length = rs.length := levelsOf_length rs ls hls
      have hn : (0 : Int) < (rs.length : Int) := by
        have := Nat.pos_of_ne_zero hlen
        exact_mod_cast this
      have hbound : ∀ x ∈ ls, x ≤ ls.foldl max 0 :=
        fun x hx => mem_le_foldl_max ls 0 x hx
      have hsum : ls.sum ≤ ((rs.length : Int)) * (ls.foldl max 0) := by
        have := sum_le_length_mul ls (ls.foldl max 0) hbound
        rwa [hlsl] at this
      have h1 : Int.fdiv ls.sum (rs.length : Int)
          ≤ Int.fdiv ((rs.length : Int) * (ls.foldl max 0)) (rs.length : Int) := by
        rw [Int.fdiv_eq_ediv _ (le_of_lt hn), Int.fdiv_eq_ediv _ (le_of_lt hn)]
        exact Int.ediv_le_ediv hn hsum
      have h2 : Int.fdiv ((rs.length : Int) * (ls.foldl max 0)) (rs.length : Int)
          = ls.foldl max 0 := by
        rw [Int.fdiv_eq_ediv _ (le_of_lt hn)]
        exact Int.mul_ediv_cancel_left _ (ne_of_gt hn)
      exact h1.trans (le_of_eq h2)

/-- C7, witness: a two-record group with levels 5 and 10; ACL is 7, HLC
is 10, and 7 ≤ 10. -/
theorem c7_witness :
    playerAcl [[("Level", "5")], [("Level", "10")]] = some 7 ∧
    playerHlc [[("Level", "5")], [("Level", "10")]] = some 10 ∧ (7 : Int) ≤ 10 :=
  ⟨by decide, by decide,
    c7_aclLeHlc [[("Level", "5")], [("Level", "10")]] 7 10 (by decide) (by decide)⟩

theorem mdlScan_spec (rs : List Record) :
    ∀ s : Int, ∀ c : Nat, mdlScan rs = some (s, c) →
      ∃ ls, deadLevelsOf rs = some ls ∧ ls.sum = s ∧ ls.length = c := by
  induction rs with
  | nil =>
    intro s c h
    simp only [mdlScan, Option.some.injEq, Prod.mk.injEq] at h
    refine ⟨[], rfl, ?_, ?_⟩
    · simp [h.1]
    · simp [h.2]
  | cons r rest ih =>
    intro s c h
    cases hcod : dictGet r "Cause of Death" with
    | none => simp [mdlScan, hcod] at h
    | some cod =>
      by_cases hc : cod = ""
      · simp only [mdlScan, hcod, if_pos hc] at h
        rcases ih s c h with ⟨ls, hls, hsum, hlen⟩
        refine ⟨ls, ?_, hsum, hlen⟩
        unfold deadLevelsOf at hls ⊢
        have hdead : isDeadRecord r = false := by simp [isDeadRecord, hcod, hc]
        simpa [List.filter_cons, hdead] using hls
      · simp only [mdlScan, hcod, if_neg hc] at h
        cases hlv : (dictGet r "Level").bind pyInt with
        | none =>
          rw [hlv] at h
          simp at h
        | some l =>
          rw [hlv] at h
          cases hscan : mdlScan rest with
          | none =>
            rw [hscan] at h
            simp at h
          | some p =>
            rw [hscan] at h
            simp only [Option.map_some', Option.some.injEq, Prod.mk.injEq] at h
            rcases ih p.1 p.2 (by rw [hscan]) with ⟨ls, hls, hsum, hlen⟩
            refine ⟨l :: ls, ?_, ?_, ?_⟩
            · unfold deadLevelsOf at hls ⊢
              have hdead : isDeadRecord r = true := by simp [isDeadRecord, hcod, hc]
              simp only [List.filter_cons, hdead, if_true]
              simp [levelsOf, hlv, hls]
            · simp [hsum, h.1]
            · simp [hlen, h.2]

/-- C4: the MDL value computed by `printMdlByPlayer` for a group equals
the floored quotient of the summed integer-parsed levels of the group's
dead records (non-empty `Cause of Death`) by the number of such records
when that number is positive, and equals 0 when the group has no dead
records. -/
theorem c4_mdl (rs : List Record) (v : Int) (h : playerMdl rs = some v) :
    ∃ ls, deadLevelsOf rs = some ls ∧
      ls.length = (rs.filter isDeadRecord).length ∧
      v = if 0 < ls.length then Int.fdiv ls.sum ls.length else 0 := by
  unfold playerMdl at h
  cases hscan : mdlScan rs with
  | none =>
    rw [hscan] at h
    cases h
  | some p =>
    rw [hscan] at h
    simp only [Option.some.injEq] at h
    rcases mdlScan_spec rs p.1 p.2 (by rw [hscan]) with ⟨ls, hls, hsum, hlen⟩
    refine ⟨ls, hls, ?_, ?_⟩
    · unfold deadLevelsOf at hls
      exact levelsOf_length _ ls hls
    · rw [← h, hsum, hlen]

/-- C4, witness: a group with one dead level-10 record and one living
level-5 record has MDL 10; applying the theorem exhibits the dead-level
characterization. -/
theorem c4_witness :
    playerMdl [[("Level", "10"), ("Cause of Death", "Orc")],
               [("Level", "5"), ("Cause of Death", "")]] = some 10 ∧
    (∃ ls, deadLevelsOf [[("Level", "10"), ("Cause of Death", "Orc")],
               [("Level", "5"), ("Cause of Death", "")]] = some ls ∧
      ls.length = ([[("Level", "10"), ("Cause of Death", "Orc")],
               [("Level", "5"), ("Cause of Death", "")]].filter isDeadRecord).length ∧
      (10 : Int) = if 0 < ls.length then Int.fdiv ls.sum ls.length else 0) :=
  ⟨by decide,
    c4_mdl [[("Level", "10"), ("Cause of Death", "Orc")],
            [("Level", "5"), ("Cause of Death", "")]] 10 (by decide)⟩

theorem filter_mem_cons_split (x : String) (l' : List String) (hx : x ∉ l') :
    ∀ causes : List String,
      (causes.filter (fun c => decide (c ∈ x :: l'))).length
        = causes.count x + (causes.filter (fun c => decide (c ∈ l'))).length := by
  intro causes
  rw [← List.countP_eq_length_filter, ← List.countP_eq_length_filter]
  induction causes with
  | nil => simp
  | cons c cs ih =>
    simp only [List.countP_cons, List.count_cons, ih]
    by_cases h1 : c = x
    · have hb : c ∉ l' := h1 ▸ hx
      simp [h1, hb, hx]
      omega
    · by_cases h2 : c ∈ l'
      · simp [h1, h2]
        omega
      · simp [h1, h2]

theorem sum_counts_over_nodup (l : List String) :
    l.Nodup → ∀ causes : List String,
      ((l.map (fun m => causes.count m)).sum
        = (causes.filter (fun c => decide (c ∈ l))).length) := by
  induction l with
  | nil =>
    intro _ causes
    simp
  | cons x l' ih =>
    intro hnd causes
    rcases List.nodup_cons.1 hnd with ⟨hx, hnd'⟩
    simp only [List.map_cons, List.sum_cons, ih hnd' causes]
    rw [filter_mem_cons_split x l' hx causes]

theorem totalDeathsOf_eq (causes : List String) :
    totalDeathsOf causes = (causes.filter (fun c => c != "")).length := by
  unfold totalDeathsOf killedByMobDict
  rw [List.map_map]
  have hnd : ((killedByMobSet causes).filter (fun m => m != "")).Nodup :=
    (List.nodup_dedup causes).filter _
  have hsum := sum_counts_over_nodup ((killedByMobSet causes).filter (fun m => m != ""))
    hnd causes
  have hcomp : ((fun e : String × Nat => e.2) ∘ fun m => (m, causes.count m))
      = fun m => causes.count m := rfl
  rw [hcomp, hsum]
  congr 1
  apply List.filter_congr
  intro c hc
  by_cases hce : c = ""
  · subst hce
    simp [List.mem_filter]
  · simp [List.mem_filter, killedByMobSet, List.mem_dedup, hc, hce]

theorem totalAliveOf_eq (causes : List String) :
    totalAliveOf causes = causes.count "" := by
  unfold totalAliveOf killedByMobSet
  by_cases h : "" ∈ causes.dedup
  · simp [h]
  · simp only [h, if_false]
    have hmem : "" ∉ causes := fun hc => h (List.mem_dedup.2 hc)
    exact (List.count_eq_zero.2 hmem).symm

theorem codsOf_filters (store : List Record) :
    ∀ causes : List String, codsOf store = some causes →
      (causes.filter (fun c => c != "")).length = (store.filter isDeadRecord).length ∧
      causes.count "" = (store.filter isAliveRecord).length := by
  induction store with
  | nil =>
    intro causes h
    simp only [codsOf, Option.some.injEq] at h
    rw [← h]
    simp
  | cons r rest ih =>
    intro causes h
    cases hc : dictGet r "Cause of Death" with
    | none => simp [codsOf, hc] at h
    | some c =>
      simp only [codsOf, hc] at h
      cases hr : codsOf rest with
      | none =>
        rw [hr] at h
        simp at h
      | some cs =>
        rw [hr] at h
        simp only [Option.map_some', Option.some.injEq] at h
        rw [← h]
        rcases ih cs hr with ⟨ihd, iha⟩
        have hd : isDeadRecord r = (c != "") := by simp [isDeadRecord, hc]
        have hali : isAliveRecord r = (c == "") := by simp [isAliveRecord, hc]
        constructor
        · by_cases hce : c = ""
          · simp [List.filter_cons, hd, hce, ihd]
          · simp [List.filter_cons, hd, hce, ihd]
        · by_cases hce : c = ""
          · simp [List.filter_cons, List.count_cons, hali, hce, iha]
          · simp [List.filter_cons, List.count_cons, hali, hce, iha]

/-- C1: writing `d` for the number of records with a non-empty
`Cause of Death` and `a` for the number of records with an empty one,
the dead-to-living ratio computation of `printDeathStats` returns the
reduced fraction `d / a` (numerator and denominator divided by their
gcd, hence coprime) whenever `a` is positive, and fails with the
division-by-zero error of `Fraction(d, 0)` when `a = 0`. -/
theorem c1_ratio (store : List Record) (causes : List String)
    (h : codsOf store = some causes) :
    ((store.filter isAliveRecord).length ≠ 0 →
      deadToLivingFracation store
        = some ((store.filter isDeadRecord).length
                  / Nat.gcd (store.filter isDeadRecord).length
                      (store.filter isAliveRecord).length,
                (store.filter isAliveRecord).length
                  / Nat.gcd (store.filter isDeadRecord).length
                      (store.filter isAliveRecord).length) ∧
      Nat.Coprime
        ((store.filter isDeadRecord).length
          / Nat.gcd (store.filter isDeadRecord).length
              (store.filter isAliveRecord).length)
        ((store.filter isAliveRecord).length
          / Nat.gcd (store.filter isDeadRecord).length
              (store.filter isAliveRecord).length)) ∧
    ((store.filter isAliveRecord).length = 0 →
      deadToLivingFracation store = none) := by
  have hdead : totalDeathsOf causes = (store.filter isDeadRecord).length := by
    rw [totalDeathsOf_eq]
    exact (codsOf_filters store causes h).1
  have halive : totalAliveOf causes = (store.filter isAliveRecord).length := by
    rw [totalAliveOf_eq]
    exact (codsOf_filters store causes h).2
  constructor
  · intro hne
    constructor
    · simp only [deadToLivingFracation, h, hdead, halive]
      rw [if_neg hne]
    · exact Nat.coprime_div_gcd_div_gcd
        (Nat.gcd_pos_of_pos_right _ (Nat.pos_of_ne_zero hne))
  · intro hz
    simp only [deadToLivingFracation, h, hdead, halive]
    rw [if_pos hz]

/-- C1, witness: a store with two dead records (cause `Orc`) and one
living record; the ratio is the reduced fraction 2/1. -/
theorem c1_witness :
    codsOf [[("Cause of Death", "Orc")], [("Cause of Death", "")],
            [("Cause of Death", "Orc")]] = some ["Orc", "", "Orc"] ∧
    deadToLivingFracation [[("Cause of Death", "Orc")], [("Cause of Death", "")],
            [("Cause of Death", "Orc")]] = some (2, 1) ∧
    Nat.Coprime 2 1 := by
  refine ⟨by decide, ?_, ?_⟩
  · exact ((c1_ratio [[("Cause of Death", "Orc")], [("Cause of Death", "")],
      [("Cause of Death", "Orc")]] ["Orc", "", "Orc"] (by decide)).1 (by decide)).1
  · exact ((c1_ratio [[("Cause of Death", "Orc")], [("Cause of Death", "")],
      [("Cause of Death", "Orc")]] ["Orc", "", "Orc"] (by decide)).1 (by decide)).2
